import Mathlib

/-!
# Verification of the headlessui Menu reducer

Shallow embedding of the reducer-driven interaction state machine of
`src/packages/@headlessui-react/src/components/menu/menu.tsx`, together with
proofs of the specified properties of its transitions.

The embedding follows the TypeScript source closely:

* JavaScript arrays of items become `List MenuItem`; `Array.prototype.findIndex`
  (which returns `-1` on failure) becomes the `Option Nat`-valued `findIndex`.
* The mutable `dataRef.current` cell is represented by the value the reducer
  reads from it at dispatch time (`MenuItemData`).
* `number | null` active indices become `Option Nat`.
* The two DOM handles (`buttonRef`, `itemsRef`) are opaque to the reducer and
  are modelled as opaque tokens.

The active-index resolver `calculateActiveIndex` lives in
`src/utils/calculate-active-index.ts`, which is not part of the provided
sources; it is modelled from the specification (see its doc comment).
-/

/-- Enum `MenuStates` from menu.tsx (lines 36-39): the open/closed dimension. -/
inductive MenuStates where
  | Open
  | Closed
deriving DecidableEq

/-- The value of a `MenuItemDataRef` cell (menu.tsx line 41):
`{ textValue?: string; disabled: boolean }`.  The reducer reads this mutable
cell at dispatch time; we model the value it reads. -/
structure MenuItemData where
  textValue : Option String
  disabled : Bool
deriving DecidableEq

/-- One registered entry of the collection (menu.tsx line 47):
`{ id: string; dataRef: MenuItemDataRef }`. -/
structure MenuItem where
  id : String
  dataRef : MenuItemData
deriving DecidableEq

/-- Record `StateDefinition` from menu.tsx (lines 43-50).  The two DOM refs are
opaque to the reducer (it only copies them along), so they are modelled as
opaque numeric tokens. -/
structure StateDefinition where
  menuState : MenuStates
  buttonRef : Nat
  itemsRef : Nat
  items : List MenuItem
  searchQuery : String
  activeItemIndex : Option Nat
deriving DecidableEq

/-- The `Focus` intents of the active-index resolver, as named by the
specification (first/last/next/previous/specific/none); `Specific` carries the
target item id as in the `GoToItem` action of menu.tsx (line 66). -/
inductive Focus where
  | First
  | Previous
  | Next
  | Last
  | Specific (id : String)
  | Nothing
deriving DecidableEq

/-- The `Actions` union of menu.tsx (lines 63-71). -/
inductive Actions where
  | CloseMenu
  | OpenMenu
  | GoToItem (focus : Focus)
  | Search (value : String)
  | ClearSearch
  | RegisterItem (id : String) (dataRef : MenuItemData)
  | UnregisterItem (id : String)
deriving DecidableEq

/-- Model of JavaScript `Array.prototype.findIndex`: the index of the first
element satisfying `p`, with JavaScript's `-1` result modelled as `none`. -/
def findIndex (p : α → Bool) : List α → Option Nat
  | [] => none
  | a :: as => if p a then some 0 else (findIndex p as).map (· + 1)

/-- Model of JavaScript `Array.prototype.indexOf`: the index of the first
element equal to `x` (strict equality on these record values), `-1` modelled
as `none`. -/
def indexOf [DecidableEq α] (x : α) (l : List α) : Option Nat :=
  findIndex (fun a => a = x) l

/-- Model of JavaScript `String.prototype.startsWith` on the prefix side:
`startsWithChars pre s` is `true` iff the character list `pre` is an initial
segment of `s`. -/
def startsWithChars : List Char → List Char → Bool
  | [], _ => true
  | _ :: _, [] => false
  | c :: cs, d :: ds => c == d && startsWithChars cs ds

/-- Model of JavaScript `s.startsWith(pre)` on whole strings. -/
def jsStartsWith (s pre : String) : Bool :=
  startsWithChars pre.data s.data

/-- Modelled from the spec: one forward step of the Active-Index Resolver's
cyclic scan (spec section 4.2: "scan forward cyclically at most
`collection.length` steps, return the first non-disabled index encountered").
`d` is the list of per-item disabled flags; positions are taken modulo
`d.length`; the fuel argument bounds the number of steps.  Out-of-range reads
default to `true` (disabled), so an empty collection always yields `none`. -/
def scanCyclic (d : List Bool) (start : Nat) : Nat → Option Nat
  | 0 => none
  | steps + 1 =>
    if d.getD (start % d.length) true = false then some (start % d.length)
    else scanCyclic d (start + 1) steps

/-- Modelled from the spec: the backward cyclic scan, symmetric to
`scanCyclic` (spec section 4.2: "`Previous` → symmetric, scanning backward
cyclically").  Stepping backward by one position is adding `d.length - 1`
modulo `d.length`. -/
def scanCyclicBack (d : List Bool) (start : Nat) : Nat → Option Nat
  | 0 => none
  | steps + 1 =>
    if d.getD (start % d.length) true = false then some (start % d.length)
    else scanCyclicBack d (start + (d.length - 1)) steps

/-- Modelled from the spec: the Active-Index Resolver
`calculateActiveIndex` of `src/utils/calculate-active-index.ts`, which is not
among the provided sources (menu.tsx imports it at line 31).  Spec section
4.2: `First` → first non-disabled index or `null`; `Last` → symmetric from the
end; `Next`/`Previous` → scan forward/backward cyclically at most
`collection.length` steps from the position after/before the current one,
returning the first non-disabled index encountered, or unchanged if none
exists; when the current index is `null`, `Next`/`Previous` behave as
`First`/`Last`; `Specific id` → the index of the item matching `id`, or
unchanged if that item is disabled (and unchanged if no item matches, a case
the spec leaves open); `Nothing` → `null`.  Disabled flags are read from each
item's `dataRef`. -/
def calculateActiveIndex (focus : Focus) (items : List MenuItem)
    (currentIndex : Option Nat) : Option Nat :=
  let d := items.map (fun it => it.dataRef.disabled)
  match focus with
  | Focus.First => scanCyclic d 0 items.length
  | Focus.Last => scanCyclicBack d (items.length - 1) items.length
  | Focus.Next =>
    match currentIndex with
    | none => scanCyclic d 0 items.length
    | some c =>
      match scanCyclic d (c + 1) items.length with
      | some i => some i
      | none => currentIndex
  | Focus.Previous =>
    match currentIndex with
    | none => scanCyclicBack d (items.length - 1) items.length
    | some c =>
      match scanCyclicBack d (c + items.length - 1) items.length with
      | some i => some i
      | none => currentIndex
  | Focus.Specific id =>
    match findIndex (fun it => it.id = id) items with
    | some i => if d.getD i true = true then currentIndex else some i
    | none => currentIndex
  | Focus.Nothing => none

/-- Reducer `reducers[ActionTypes.CloseMenu]` (menu.tsx lines 79-82). -/
def closeMenu (state : StateDefinition) : StateDefinition :=
  if state.menuState = MenuStates.Closed then state
  else { state with activeItemIndex := none, menuState := MenuStates.Closed }

/-- Reducer `reducers[ActionTypes.OpenMenu]` (menu.tsx lines 83-86). -/
def openMenu (state : StateDefinition) : StateDefinition :=
  if state.menuState = MenuStates.Open then state
  else { state with menuState := MenuStates.Open }

/-- Reducer `reducers[ActionTypes.GoToItem]` (menu.tsx lines 87-97): resolve the new
active index, then either take the no-op fast path or install the new index
and clear the search query. -/
def goToItem (state : StateDefinition) (focus : Focus) : StateDefinition :=
  let activeItemIndex :=
    calculateActiveIndex focus state.items state.activeItemIndex
  if state.searchQuery = "" ∧ state.activeItemIndex = activeItemIndex then state
  else { state with searchQuery := "", activeItemIndex := activeItemIndex }

/-- The predicate of the `findIndex` call inside
`reducers[ActionTypes.Search]` (menu.tsx lines 100-103):
`item.dataRef.current.textValue?.startsWith(searchQuery) &&
!item.dataRef.current.disabled`.  A missing `textValue` (optional chaining)
fails the match. -/
def searchItemMatches (searchQuery : String) (item : MenuItem) : Bool :=
  (match item.dataRef.textValue with
   | some t => jsStartsWith t searchQuery
   | none => false) && !item.dataRef.disabled

/-- Reducer `reducers[ActionTypes.Search]` (menu.tsx lines 98-107). -/
def search (state : StateDefinition) (value : String) : StateDefinition :=
  let searchQuery := state.searchQuery ++ value
  match findIndex (searchItemMatches searchQuery) state.items with
  | none => { state with searchQuery := searchQuery }
  | some m =>
    if state.activeItemIndex = some m then { state with searchQuery := searchQuery }
    else { state with searchQuery := searchQuery, activeItemIndex := some m }

/-- Reducer `reducers[ActionTypes.ClearSearch]` (menu.tsx lines 108-111). -/
def clearSearch (state : StateDefinition) : StateDefinition :=
  if state.searchQuery = "" then state
  else { state with searchQuery := "" }

/-- Reducer `reducers[ActionTypes.RegisterItem]` (menu.tsx lines 112-115): append the
new entry, unconditionally. -/
def registerItem (state : StateDefinition) (id : String)
    (dataRef : MenuItemData) : StateDefinition :=
  { state with items := state.items ++ [{ id := id, dataRef := dataRef }] }

/-- Reducer `reducers[ActionTypes.UnregisterItem]` (menu.tsx lines 116-136).
`currentActiveItem` is read from the pre-splice copy of the array; the entry
at the first index whose id matches is then removed, and the new active index
is `null` when the removed index was the active one or no item was active,
and otherwise `nextItems.indexOf(currentActiveItem)`.

Two JavaScript corner cases need a note: when `state.activeItemIndex` is out
of range, `nextItems[state.activeItemIndex]` is `undefined`, which does not
compare `=== null`, and `indexOf(undefined)` then yields `-1`; likewise
`indexOf` yields `-1` when the active entry is no longer present (impossible
here, since only one other index is removed).  The resulting numeric `-1`
behaves exactly like `null` in every reducer of this file, and both cases
require an already-dangling active index, so the model collapses them to
`none`. -/
def unregisterItem (state : StateDefinition) (id : String) : StateDefinition :=
  let idx := findIndex (fun a => a.id = id) state.items
  let nextItems :=
    match idx with
    | some i => state.items.eraseIdx i
    | none => state.items
  { state with
    items := nextItems,
    activeItemIndex :=
      match state.activeItemIndex with
      | none => none
      | some a =>
        if idx = some a then none
        else
          match state.items[a]? with
          | some currentActiveItem => indexOf currentActiveItem nextItems
          | none => none }

/-- Dispatcher `stateReducer` (menu.tsx lines 152-154): total dispatch over the action
union, one handler per action tag. -/
def stateReducer (state : StateDefinition) (action : Actions) : StateDefinition :=
  match action with
  | Actions.CloseMenu => closeMenu state
  | Actions.OpenMenu => openMenu state
  | Actions.GoToItem focus => goToItem state focus
  | Actions.Search value => search state value
  | Actions.ClearSearch => clearSearch state
  | Actions.RegisterItem id dataRef => registerItem state id dataRef
  | Actions.UnregisterItem id => unregisterItem state id

/-- The error message built by `useMenuContext` (menu.tsx line 145):
markdown template `` `<${component} /> is missing a parent <${Menu.name} />
component.` `` with `Menu.name = "Menu"`. -/
def missingParentMessage (component : String) : String :=
  "<" ++ component ++ " /> is missing a parent <Menu /> component."

/-- Context lookup `useMenuContext` (menu.tsx lines 142-150): the context lookup either
yields the context value or throws; throwing is modelled as `Except.error`
carrying the message. -/
def useMenuContext (component : String)
    (context : Option (StateDefinition × List Actions)) :
    Except String (StateDefinition × List Actions) :=
  match context with
  | none => Except.error (missingParentMessage component)
  | some ctx => Except.ok ctx

/-- The active-index validity invariant of the spec (section 3, ActiveIndex):
`null`, or a valid index into the collection. -/
def activeIndexValid (state : StateDefinition) : Bool :=
  match state.activeItemIndex with
  | none => true
  | some n => n < state.items.length

/-- The disabled flag the resolver reads for index `i` (out-of-range reads
count as disabled). -/
def disabledAt (items : List MenuItem) (i : Nat) : Bool :=
  (items.map (fun it => it.dataRef.disabled)).getD i true

/-- Sample collection entries used by the witness theorems. -/
def itemA : MenuItem := ⟨"a", ⟨some "alpha", false⟩⟩

def itemB : MenuItem := ⟨"b", ⟨some "beta", false⟩⟩

def itemC : MenuItem := ⟨"c", ⟨some "gamma", false⟩⟩

/-- A sample open state with three enabled items and the last one active. -/
def sampleOpen : StateDefinition :=
  ⟨MenuStates.Open, 0, 0, [itemA, itemB, itemC], "", some 2⟩

/-- String `s` is said to mention `needle` when `needle` occurs contiguously in `s`. -/
def stringMentions (needle s : String) : Prop :=
  ∃ pre post, s.data = pre ++ needle.data ++ post

/-- Written from the claim's words: ASCII lowercasing of one character, the
character-level model of JavaScript `String.prototype.toLowerCase`. -/
def lowerChar (c : Char) : Char :=
  if 'A' ≤ c ∧ c ≤ 'Z' then Char.ofNat (c.toNat + 32) else c

/-- Written from the claim's words: lowercasing of a whole string. -/
def jsToLower (s : String) : String := ⟨s.data.map lowerChar⟩

/-- Written from the claim's words: the case-insensitive starts-with compare
that claim C4 asserts for the search match — both sides lowercased. -/
def ciStartsWith (s pre : String) : Bool :=
  jsStartsWith (jsToLower s) (jsToLower pre)

/-- The state of the spec's search example: items Pickup, Home delivery,
Dine in (stored lowercased), with the query "h" already accumulated. -/
def sampleSearchState : StateDefinition :=
  ⟨MenuStates.Open, 0, 0,
    [⟨"i1", ⟨some "pickup", false⟩⟩, ⟨"i2", ⟨some "home delivery", false⟩⟩,
     ⟨"i3", ⟨some "dine in", false⟩⟩], "h", none⟩

/-- A collection in which every entry is disabled. -/
def sampleWrapState : StateDefinition :=
  ⟨MenuStates.Open, 0, 0,
    [⟨"x", ⟨none, false⟩⟩, ⟨"y", ⟨none, true⟩⟩, ⟨"z", ⟨none, false⟩⟩], "", some 2⟩

/-- Witness for C2: `Next` from the last enabled index 2 wraps to the first
enabled index 0, skipping the disabled entry at index 1; with all items
disabled the index is unchanged. -/
def sampleAllDisabled : StateDefinition :=
  ⟨MenuStates.Open, 0, 0,
    [⟨"x", ⟨none, true⟩⟩, ⟨"y", ⟨none, true⟩⟩], "", some 1⟩

theorem findIndex_some_lt {p : α → Bool} :
    ∀ {l : List α} {i : Nat}, findIndex p l = some i → i < l.length := by
  intro l
  induction l with
  | nil => intro i h; simp [findIndex] at h
  | cons a as ih =>
    intro i h
    simp only [findIndex] at h
    by_cases hp : p a
    · rw [if_pos hp] at h
      injection h with h
      subst h
      simp
    · rw [if_neg hp] at h
      cases hf : findIndex p as with
      | none => rw [hf] at h; simp at h
      | some j =>
        rw [hf] at h
        simp only [Option.map_some'] at h
        injection h with h
        subst h
        have := ih hf
        simp only [List.length_cons]
        omega

theorem findIndex_some_get {p : α → Bool} :
    ∀ {l : List α} {i : Nat}, findIndex p l = some i →
      ∃ a, l[i]? = some a ∧ p a = true := by
  intro l
  induction l with
  | nil => intro i h; simp [findIndex] at h
  | cons a as ih =>
    intro i h
    simp only [findIndex] at h
    by_cases hp : p a
    · rw [if_pos hp] at h
      injection h with h
      subst h
      exact ⟨a, by simp, by simpa using hp⟩
    · rw [if_neg hp] at h
      cases hf : findIndex p as with
      | none => rw [hf] at h; simp at h
      | some j =>
        rw [hf] at h
        simp only [Option.map_some'] at h
        injection h with h
        subst h
        obtain ⟨b, hb, hpb⟩ := ih hf
        exact ⟨b, by simpa using hb, hpb⟩

theorem findIndex_some_first {p : α → Bool} :
    ∀ {l : List α} {i : Nat}, findIndex p l = some i →
      ∀ k, k < i → ((l[k]?).map p).getD false = false := by
  intro l
  induction l with
  | nil => intro i h; simp [findIndex] at h
  | cons a as ih =>
    intro i h k hk
    simp only [findIndex] at h
    by_cases hp : p a
    · rw [if_pos hp] at h
      injection h with h
      omega
    · rw [if_neg hp] at h
      cases hf : findIndex p as with
      | none => rw [hf] at h; simp at h
      | some j =>
        rw [hf] at h
        simp only [Option.map_some'] at h
        injection h with h
        subst h
        cases k with
        | zero => simpa using hp
        | succ k' => simpa using ih hf k' (by omega)

theorem findIndex_eq_none_iff {p : α → Bool} :
    ∀ {l : List α}, findIndex p l = none ↔ ∀ a ∈ l, p a = false := by
  intro l
  induction l with
  | nil => simp [findIndex]
  | cons a as ih =>
    simp only [findIndex]
    by_cases hp : p a
    · rw [if_pos hp]
      simp [hp]
    · rw [if_neg hp]
      rw [Option.map_eq_none', ih]
      have hpa : p a = false := by simpa using hp
      simp [hpa]

theorem findIndex_eq_some_of {p : α → Bool} :
    ∀ {l : List α} {m : Nat} {a : α}, l[m]? = some a → p a = true →
      (∀ k, k < m → ((l[k]?).map p).getD false = false) →
      findIndex p l = some m := by
  intro l
  induction l with
  | nil => intro m a h; simp at h
  | cons x xs ih =>
    intro m a hget hpa hfirst
    cases m with
    | zero =>
      simp at hget
      subst hget
      simp [findIndex, hpa]
    | succ m' =>
      have hx : p x = false := by simpa using hfirst 0 (by omega)
      simp only [List.getElem?_cons_succ] at hget
      have h2 := ih hget hpa (fun k hk => by
        simpa using hfirst (k + 1) (by omega))
      simp [findIndex, hx, h2]

theorem mem_of_getElem? :
    ∀ {l : List α} {n : Nat} {x : α}, l[n]? = some x → x ∈ l := by
  intro l
  induction l with
  | nil => intro n x h; simp at h
  | cons a as ih =>
    intro n x h
    cases n with
    | zero => simp at h; simp [h]
    | succ n' =>
      simp only [List.getElem?_cons_succ] at h
      exact List.mem_cons_of_mem _ (ih h)

theorem indexOf_of_mem [DecidableEq α] {x : α} {l : List α} (hx : x ∈ l) :
    ∃ k, indexOf x l = some k ∧ k < l.length ∧ l[k]? = some x := by
  cases hfind : indexOf x l with
  | none =>
    have := findIndex_eq_none_iff.mp hfind x hx
    simp at this
  | some k =>
    refine ⟨k, rfl, findIndex_some_lt hfind, ?_⟩
    obtain ⟨a, hget, hpa⟩ := findIndex_some_get hfind
    simp at hpa
    rw [hpa] at hget
    exact hget

theorem getD_true_of_ge {d : List Bool} {i : Nat} (h : d.length ≤ i) :
    d.getD i true = true :=
  List.getD_eq_default d true h

theorem lt_length_of_getD_false {d : List Bool} {i : Nat}
    (h : d.getD i true = false) : i < d.length := by
  by_contra hge
  rw [getD_true_of_ge (by omega)] at h
  simp at h

theorem scanCyclic_some {d : List Bool} :
    ∀ {steps start i : Nat}, scanCyclic d start steps = some i →
      i < d.length ∧ d.getD i true = false := by
  intro steps
  induction steps with
  | zero => intro start i h; simp [scanCyclic] at h
  | succ n ih =>
    intro start i h
    simp only [scanCyclic] at h
    by_cases hd : d.getD (start % d.length) true = false
    · rw [if_pos hd] at h
      injection h with h
      subst h
      exact ⟨lt_length_of_getD_false hd, hd⟩
    · rw [if_neg hd] at h
      exact ih h

theorem scanCyclicBack_some {d : List Bool} :
    ∀ {steps start i : Nat}, scanCyclicBack d start steps = some i →
      i < d.length ∧ d.getD i true = false := by
  intro steps
  induction steps with
  | zero => intro start i h; simp [scanCyclicBack] at h
  | succ n ih =>
    intro start i h
    simp only [scanCyclicBack] at h
    by_cases hd : d.getD (start % d.length) true = false
    · rw [if_pos hd] at h
      injection h with h
      subst h
      exact ⟨lt_length_of_getD_false hd, hd⟩
    · rw [if_neg hd] at h
      exact ih h

theorem scanCyclic_eq {d : List Bool} :
    ∀ (m steps start : Nat), m < steps →
      (∀ k, k < m → d.getD ((start + k) % d.length) true = true) →
      d.getD ((start + m) % d.length) true = false →
      scanCyclic d start steps = some ((start + m) % d.length) := by
  intro m
  induction m with
  | zero =>
    intro steps start hm hbefore hit
    cases steps with
    | zero => omega
    | succ n =>
      simp only [scanCyclic]
      rw [if_pos (by simpa using hit)]
      simp
  | succ m' ih =>
    intro steps start hm hbefore hit
    cases steps with
    | zero => omega
    | succ n =>
      have h0 : d.getD (start % d.length) true = true := by
        simpa using hbefore 0 (by omega)
      simp only [scanCyclic]
      rw [if_neg (by rw [h0]; simp)]
      have := ih n (start + 1) (by omega)
        (fun k hk => by
          have := hbefore (k + 1) (by omega)
          simpa [Nat.add_assoc, Nat.add_comm 1 k] using this)
        (by simpa [Nat.add_assoc, Nat.add_comm 1 m'] using hit)
      simpa [Nat.add_assoc, Nat.add_comm 1 m'] using this

theorem scanCyclicBack_eq {d : List Bool} :
    ∀ (m steps start : Nat), m < steps →
      (∀ k, k < m → d.getD ((start + k * (d.length - 1)) % d.length) true = true) →
      d.getD ((start + m * (d.length - 1)) % d.length) true = false →
      scanCyclicBack d start steps = some ((start + m * (d.length - 1)) % d.length) := by
  intro m
  induction m with
  | zero =>
    intro steps start hm hbefore hit
    cases steps with
    | zero => omega
    | succ n =>
      simp only [scanCyclicBack]
      rw [if_pos (by simpa using hit)]
      simp
  | succ m' ih =>
    intro steps start hm hbefore hit
    cases steps with
    | zero => omega
    | succ n =>
      have h0 : d.getD (start % d.length) true = true := by
        simpa using hbefore 0 (by omega)
      simp only [scanCyclicBack]
      rw [if_neg (by rw [h0]; simp)]
      have harith : ∀ k : Nat,
          start + (d.length - 1) + k * (d.length - 1)
            = start + (k + 1) * (d.length - 1) := by
        intro k
        rw [Nat.succ_mul]
        omega
      have := ih n (start + (d.length - 1)) (by omega)
        (fun k hk => by
          rw [harith k]
          exact hbefore (k + 1) (by omega))
        (by rw [harith m']; exact hit)
      rw [this, harith m']

theorem hit_offset {n r j : Nat} (hn : 0 < n) (hr : r < n) (hj : j < n) :
    (r + (j + n - r) % n) % n = j := by
  rcases le_or_lt r j with h | h
  · have h1 : j + n - r = (j - r) + n := by omega
    rw [h1, Nat.add_mod_right]
    have h2 : j - r < n := by omega
    rw [Nat.mod_eq_of_lt h2]
    have h3 : r + (j - r) = j := by omega
    rw [h3, Nat.mod_eq_of_lt hj]
  · have h1 : j + n - r < n := by omega
    rw [Nat.mod_eq_of_lt h1]
    have h2 : r + (j + n - r) = j + n := by omega
    rw [h2, Nat.add_mod_right, Nat.mod_eq_of_lt hj]

theorem scanCyclic_isSome {d : List Bool} {j : Nat} (hj : d.getD j true = false)
    {steps : Nat} (hsteps : d.length ≤ steps) (start : Nat) :
    ∃ i, scanCyclic d start steps = some i := by
  have hjlt : j < d.length := lt_length_of_getD_false hj
  have hn : 0 < d.length := by omega
  have hr : start % d.length < d.length := Nat.mod_lt _ hn
  have hex : ∃ m, d.getD ((start + m) % d.length) true = false := by
    refine ⟨(j + d.length - start % d.length) % d.length, ?_⟩
    have hm0 : (j + d.length - start % d.length) % d.length < d.length :=
      Nat.mod_lt _ hn
    rw [Nat.add_mod, Nat.mod_eq_of_lt hm0, hit_offset hn hr hjlt]
    exact hj
  classical
  have hm0lt : (j + d.length - start % d.length) % d.length < d.length :=
    Nat.mod_lt _ hn
  have hfound : Nat.find hex ≤ (j + d.length - start % d.length) % d.length := by
    apply Nat.find_min'
    have hw : (start + (j + d.length - start % d.length) % d.length) % d.length = j := by
      rw [Nat.add_mod, Nat.mod_eq_of_lt hm0lt, hit_offset hn hr hjlt]
    rw [hw]
    exact hj
  refine ⟨(start + Nat.find hex) % d.length,
    scanCyclic_eq (Nat.find hex) steps start (by omega) ?_ (Nat.find_spec hex)⟩
  intro k hk
  have := Nat.find_min hex hk
  revert this
  cases d.getD ((start + k) % d.length) true <;> simp

theorem hit_offset_back {n r j : Nat} (hn : 0 < n) (hrn : r < n) (hj : j < n) :
    ∀ start, start % n = r → (start + ((r + n - j) % n) * (n - 1)) % n = j := by
  intro start hstart
  obtain ⟨k, rfl⟩ : ∃ k, n = k + 1 := ⟨n - 1, by omega⟩
  have hm0lt : (r + (k + 1) - j) % (k + 1) < k + 1 := Nat.mod_lt _ (by omega)
  have hsum : start + (r + (k + 1) - j) % (k + 1) * ((k + 1) - 1)
      + (r + (k + 1) - j) % (k + 1)
      = start + (r + (k + 1) - j) % (k + 1) * (k + 1) := by
    have hmul : (r + (k + 1) - j) % (k + 1) * (k + 1)
        = (r + (k + 1) - j) % (k + 1) * k + (r + (k + 1) - j) % (k + 1) :=
      Nat.mul_succ _ k
    simp only [Nat.add_sub_cancel]
    omega
  have h1 : (start + (r + (k + 1) - j) % (k + 1) * ((k + 1) - 1)
      + (r + (k + 1) - j) % (k + 1)) % (k + 1) = r := by
    rw [hsum, Nat.add_mul_mod_self_right, hstart]
  have h2 : (j + (r + (k + 1) - j) % (k + 1)) % (k + 1) = r := by
    rcases le_or_lt j r with h | h
    · have he : (r + (k + 1) - j) % (k + 1) = r - j := by
        have ha : r + (k + 1) - j = (r - j) + (k + 1) := by omega
        rw [ha, Nat.add_mod_right, Nat.mod_eq_of_lt (by omega)]
      rw [he]
      have hb : j + (r - j) = r := by omega
      rw [hb, Nat.mod_eq_of_lt hrn]
    · have he : (r + (k + 1) - j) % (k + 1) = r + (k + 1) - j := by
        rw [Nat.mod_eq_of_lt (by omega)]
      rw [he]
      have hb : j + (r + (k + 1) - j) = r + (k + 1) := by omega
      rw [hb, Nat.add_mod_right, Nat.mod_eq_of_lt hrn]
  have hcancel :
      (start + (r + (k + 1) - j) % (k + 1) * ((k + 1) - 1)) % (k + 1)
        = j % (k + 1) := by
    refine Nat.ModEq.add_right_cancel' ((r + (k + 1) - j) % (k + 1)) ?_
    show _ % (k + 1) = _ % (k + 1)
    rw [h1, h2]
  rw [hcancel, Nat.mod_eq_of_lt hj]

theorem scanCyclicBack_isSome {d : List Bool} {j : Nat}
    (hj : d.getD j true = false) {steps : Nat} (hsteps : d.length ≤ steps)
    (start : Nat) : ∃ i, scanCyclicBack d start steps = some i := by
  have hjlt : j < d.length := lt_length_of_getD_false hj
  have hn : 0 < d.length := by omega
  have hr : start % d.length < d.length := Nat.mod_lt _ hn
  have hex : ∃ m, d.getD ((start + m * (d.length - 1)) % d.length) true = false := by
    refine ⟨(start % d.length + d.length - j) % d.length, ?_⟩
    rw [hit_offset_back hn hr hjlt start rfl]
    exact hj
  classical
  have hm0lt : (start % d.length + d.length - j) % d.length < d.length :=
    Nat.mod_lt _ hn
  have hfound : Nat.find hex ≤ (start % d.length + d.length - j) % d.length := by
    apply Nat.find_min'
    rw [hit_offset_back hn hr hjlt start rfl]
    exact hj
  refine ⟨(start + Nat.find hex * (d.length - 1)) % d.length,
    scanCyclicBack_eq (Nat.find hex) steps start (by omega) ?_ (Nat.find_spec hex)⟩
  intro k hk
  have := Nat.find_min hex hk
  revert this
  cases d.getD ((start + k * (d.length - 1)) % d.length) true <;> simp

theorem scanCyclic_eq_none {d : List Bool} {start steps : Nat}
    (h : ∀ j, j < d.length → d.getD j true = true) :
    scanCyclic d start steps = none := by
  cases hs : scanCyclic d start steps with
  | none => rfl
  | some i =>
    obtain ⟨hi, hdi⟩ := scanCyclic_some hs
    rw [h i hi] at hdi
    simp at hdi

theorem scanCyclicBack_eq_none {d : List Bool} {start steps : Nat}
    (h : ∀ j, j < d.length → d.getD j true = true) :
    scanCyclicBack d start steps = none := by
  cases hs : scanCyclicBack d start steps with
  | none => rfl
  | some i =>
    obtain ⟨hi, hdi⟩ := scanCyclicBack_some hs
    rw [h i hi] at hdi
    simp at hdi

theorem getElem?_eraseIdx :
    ∀ (l : List α) (i k : Nat),
      (l.eraseIdx i)[k]? = if k < i then l[k]? else l[k + 1]? := by
  intro l
  induction l with
  | nil => intro i k; cases i <;> cases k <;> simp [List.eraseIdx]
  | cons a as ih =>
    intro i k
    cases i with
    | zero => simp [List.eraseIdx]
    | succ i' =>
      cases k with
      | zero => simp [List.eraseIdx]
      | succ k' =>
        simp only [List.eraseIdx, List.getElem?_cons_succ]
        rw [ih i' k']
        by_cases h : k' < i'
        · rw [if_pos h, if_pos (by omega)]
        · rw [if_neg h, if_neg (by omega)]

theorem length_eraseIdx_of_lt :
    ∀ {l : List α} {i : Nat}, i < l.length → (l.eraseIdx i).length = l.length - 1 := by
  intro l
  induction l with
  | nil => intro i h; simp at h
  | cons a as ih =>
    intro i h
    cases i with
    | zero => simp [List.eraseIdx]
    | succ i' =>
      simp only [List.eraseIdx, List.length_cons]
      rw [ih (by simpa using Nat.lt_of_succ_lt_succ h)]
      simp at h
      omega

theorem mem_eraseIdx_of_getElem? {l : List α} {i a : Nat} {x : α}
    (hx : l[a]? = some x) (hne : a ≠ i) : x ∈ l.eraseIdx i := by
  rcases Nat.lt_or_ge a i with h | h
  · exact mem_of_getElem? (by rw [getElem?_eraseIdx, if_pos h]; exact hx)
  · have hlt : i < a := by omega
    refine mem_of_getElem? (x := x) (n := a - 1) ?_
    rw [getElem?_eraseIdx, if_neg (by omega)]
    have : a - 1 + 1 = a := by omega
    rw [this]
    exact hx

theorem nodup_getElem?_inj :
    ∀ {l : List α}, l.Nodup → ∀ {i j : Nat} {x : α},
      l[i]? = some x → l[j]? = some x → i = j := by
  intro l
  induction l with
  | nil => intro _ i j x h; simp at h
  | cons a as ih =>
    intro hnd i j x hi hj
    rw [List.nodup_cons] at hnd
    cases i with
    | zero =>
      cases j with
      | zero => rfl
      | succ j' =>
        simp at hi
        simp only [List.getElem?_cons_succ] at hj
        subst hi
        exact absurd (mem_of_getElem? hj) hnd.1
    | succ i' =>
      cases j with
      | zero =>
        simp at hj
        simp only [List.getElem?_cons_succ] at hi
        subst hj
        exact absurd (mem_of_getElem? hi) hnd.1
      | succ j' =>
        simp only [List.getElem?_cons_succ] at hi hj
        exact congrArg Nat.succ (ih hnd.2 hi hj)

theorem indexOf_self_of_nodup [DecidableEq α] {l : List α} {a : Nat} {x : α}
    (hnd : l.Nodup) (hx : l[a]? = some x) : indexOf x l = some a := by
  apply findIndex_eq_some_of hx (by simp)
  intro k hk
  cases hget : l[k]? with
  | none => simp
  | some b =>
    simp only [hget, Option.map_some', Option.getD_some]
    by_cases hbx : b = x
    · subst hbx
      exact absurd (nodup_getElem?_inj hnd hget hx) (by omega)
    · simpa using hbx

theorem disabledAt_false_lt {items : List MenuItem} {i : Nat}
    (h : disabledAt items i = false) : i < items.length := by
  have := lt_length_of_getD_false h
  simpa using this

theorem goToItem_def (s : StateDefinition) (focus : Focus) :
    goToItem s focus =
      if s.searchQuery = "" ∧
          s.activeItemIndex = calculateActiveIndex focus s.items s.activeItemIndex
      then s
      else { s with searchQuery := "",
                    activeItemIndex :=
                      calculateActiveIndex focus s.items s.activeItemIndex } := rfl

theorem goToItem_activeItemIndex (s : StateDefinition) (focus : Focus) :
    (goToItem s focus).activeItemIndex =
      calculateActiveIndex focus s.items s.activeItemIndex := by
  rw [goToItem_def]
  by_cases h : s.searchQuery = "" ∧
      s.activeItemIndex = calculateActiveIndex focus s.items s.activeItemIndex
  · rw [if_pos h]
    exact h.2
  · rw [if_neg h]

theorem search_def (s : StateDefinition) (value : String) :
    search s value =
      match findIndex (searchItemMatches (s.searchQuery ++ value)) s.items with
      | none => { s with searchQuery := s.searchQuery ++ value }
      | some m =>
        if s.activeItemIndex = some m
        then { s with searchQuery := s.searchQuery ++ value }
        else { s with searchQuery := s.searchQuery ++ value,
                      activeItemIndex := some m } := rfl

theorem unregisterItem_def (s : StateDefinition) (id : String) :
    unregisterItem s id =
      { s with
        items :=
          match findIndex (fun a => a.id = id) s.items with
          | some i => s.items.eraseIdx i
          | none => s.items,
        activeItemIndex :=
          match s.activeItemIndex with
          | none => none
          | some a =>
            if findIndex (fun a => a.id = id) s.items = some a then none
            else
              match s.items[a]? with
              | some currentActiveItem =>
                indexOf currentActiveItem
                  (match findIndex (fun a => a.id = id) s.items with
                   | some i => s.items.eraseIdx i
                   | none => s.items)
              | none => none } := rfl

/-- Claim C5: opening an open menu, closing a closed menu and clearing an
empty search query all return the unchanged state, and dispatching
`OpenMenu` (or `CloseMenu`) twice equals dispatching it once. -/
theorem noopTransitions (s : StateDefinition) :
    (s.menuState = MenuStates.Open → stateReducer s Actions.OpenMenu = s)
  ∧ (s.menuState = MenuStates.Closed → stateReducer s Actions.CloseMenu = s)
  ∧ (s.searchQuery = "" → stateReducer s Actions.ClearSearch = s)
  ∧ stateReducer (stateReducer s Actions.OpenMenu) Actions.OpenMenu
      = stateReducer s Actions.OpenMenu
  ∧ stateReducer (stateReducer s Actions.CloseMenu) Actions.CloseMenu
      = stateReducer s Actions.CloseMenu := by
  refine ⟨?_, ?_, ?_, ?_, ?_⟩
  · intro h
    show openMenu s = s
    unfold openMenu
    rw [if_pos h]
  · intro h
    show closeMenu s = s
    unfold closeMenu
    rw [if_pos h]
  · intro h
    show clearSearch s = s
    unfold clearSearch
    rw [if_pos h]
  · show openMenu (openMenu s) = openMenu s
    unfold openMenu
    by_cases h : s.menuState = MenuStates.Open
    · rw [if_pos h, if_pos h]
    · rw [if_neg h, if_pos rfl]
  · show closeMenu (closeMenu s) = closeMenu s
    unfold closeMenu
    by_cases h : s.menuState = MenuStates.Closed
    · rw [if_pos h, if_pos h]
    · rw [if_neg h, if_pos rfl]

/-- Witness for C5 at a concrete state. -/
theorem noopTransitions_witness :
    sampleOpen.menuState = MenuStates.Open
  ∧ sampleOpen.searchQuery = ""
  ∧ stateReducer sampleOpen Actions.OpenMenu = sampleOpen
  ∧ stateReducer sampleOpen Actions.ClearSearch = sampleOpen :=
  ⟨rfl, rfl, (noopTransitions sampleOpen).1 rfl,
    (noopTransitions sampleOpen).2.2.1 rfl⟩

/-- Claim C6: closing an open menu yields `menuState = Closed` with the
active index unconditionally reset to `null`, all other fields (items,
searchQuery, and the two handles) unchanged. -/
theorem closeMenuResetsActive (s : StateDefinition)
    (h : s.menuState = MenuStates.Open) :
    stateReducer s Actions.CloseMenu =
      { s with menuState := MenuStates.Closed, activeItemIndex := none } := by
  show closeMenu s = _
  unfold closeMenu
  rw [if_neg (by rw [h]; intro hc; cases hc)]

/-- Witness for C6 at a concrete open state. -/
theorem closeMenuResetsActive_witness :
    sampleOpen.menuState = MenuStates.Open
  ∧ stateReducer sampleOpen Actions.CloseMenu =
      { sampleOpen with menuState := MenuStates.Closed, activeItemIndex := none } :=
  ⟨rfl, closeMenuResetsActive sampleOpen rfl⟩

/-- Claim C7: `GoToItem` returns the unchanged state exactly when the
resolved index equals the current one and the search query is already empty;
otherwise it installs the resolved index and clears the query. -/
theorem goToItemFastPath (s : StateDefinition) (focus : Focus) :
    (s.searchQuery = "" →
      s.activeItemIndex = calculateActiveIndex focus s.items s.activeItemIndex →
      stateReducer s (Actions.GoToItem focus) = s)
  ∧ (¬ (s.searchQuery = "" ∧
        s.activeItemIndex = calculateActiveIndex focus s.items s.activeItemIndex) →
      stateReducer s (Actions.GoToItem focus) =
        { s with searchQuery := "",
                 activeItemIndex :=
                   calculateActiveIndex focus s.items s.activeItemIndex }) := by
  constructor
  · intro h1 h2
    show goToItem s focus = s
    rw [goToItem_def, if_pos ⟨h1, h2⟩]
  · intro h
    show goToItem s focus = _
    rw [goToItem_def, if_neg h]

/-- Witness for C7: the fast path at a state whose resolver result is the
current index with an empty query, and the non-trivial path at a state with a
pending query. -/
theorem goToItemFastPath_witness :
    (sampleOpen.searchQuery = ""
      ∧ sampleOpen.activeItemIndex =
          calculateActiveIndex (Focus.Specific "c") sampleOpen.items
            sampleOpen.activeItemIndex
      ∧ stateReducer sampleOpen (Actions.GoToItem (Focus.Specific "c")) = sampleOpen)
  ∧ (¬ ((⟨MenuStates.Open, 0, 0, [itemA], "q", none⟩ : StateDefinition).searchQuery = ""
        ∧ (⟨MenuStates.Open, 0, 0, [itemA], "q", none⟩ : StateDefinition).activeItemIndex
            = calculateActiveIndex Focus.First [itemA] none)
      ∧ stateReducer (⟨MenuStates.Open, 0, 0, [itemA], "q", none⟩ : StateDefinition)
          (Actions.GoToItem Focus.First) =
          ⟨MenuStates.Open, 0, 0, [itemA], "", some 0⟩) :=
  ⟨⟨rfl, by decide, (goToItemFastPath sampleOpen (Focus.Specific "c")).1 rfl (by decide)⟩,
   ⟨by decide, by
      have h := (goToItemFastPath (⟨MenuStates.Open, 0, 0, [itemA], "q", none⟩ : StateDefinition)
        Focus.First).2 (by decide)
      rw [h]
      decide⟩⟩

/-- Claim C3 counterexample: registering an id that is already present is not
a no-op — the reducer appends a duplicate entry, so the resulting collection
differs from the input collection. -/
theorem registerItemDuplicate_cex :
    (findIndex (fun it => it.id = "a")
        (⟨MenuStates.Closed, 0, 0, [itemA], "", none⟩ : StateDefinition).items).isSome
        = true
  ∧ (stateReducer (⟨MenuStates.Closed, 0, 0, [itemA], "", none⟩ : StateDefinition)
        (Actions.RegisterItem "a" ⟨some "alpha", false⟩)).items
      ≠ (⟨MenuStates.Closed, 0, 0, [itemA], "", none⟩ : StateDefinition).items := by
  decide

/-- Claim C3 as amended: `RegisterItem` always appends the new entry at the
end of the collection — also when an entry with the same id is already
present (yielding a duplicate) — and leaves every other field unchanged. -/
theorem registerItemAppends (s : StateDefinition) (id : String)
    (dataRef : MenuItemData) :
    stateReducer s (Actions.RegisterItem id dataRef) =
      { s with items := s.items ++ [{ id := id, dataRef := dataRef }] } := rfl

/-- Claim C8: a context lookup without the required parent context yields an
error whose message names both the offending component and the required
`<Menu />` ancestor, and never proceeds; with a context present it returns
that context. -/
theorem useMenuContextThrows (component : String) :
    (∀ ctx, useMenuContext component (some ctx) = Except.ok ctx)
  ∧ useMenuContext component none = Except.error (missingParentMessage component)
  ∧ stringMentions component (missingParentMessage component)
  ∧ stringMentions "<Menu />" (missingParentMessage component) := by
  refine ⟨fun ctx => rfl, rfl, ?_, ?_⟩
  · refine ⟨"<".data, " /> is missing a parent <Menu /> component.".data, ?_⟩
    show ("<".data ++ component.data)
        ++ " /> is missing a parent <Menu /> component.".data = _
    rw [List.append_assoc]
  · refine ⟨("<".data ++ component.data) ++ " /> is missing a parent ".data,
      " component.".data, ?_⟩
    show ("<".data ++ component.data)
        ++ " /> is missing a parent <Menu /> component.".data = _
    have hconcrete : " /> is missing a parent <Menu /> component.".data
        = " /> is missing a parent ".data ++ ("<Menu />".data ++ " component.".data) := by
      decide
    rw [hconcrete]
    simp [List.append_assoc]

theorem search_searchQuery (s : StateDefinition) (value : String) :
    (search s value).searchQuery = s.searchQuery ++ value := by
  rw [search_def]
  cases hfind : findIndex (searchItemMatches (s.searchQuery ++ value)) s.items with
  | none => rfl
  | some m0 =>
    dsimp only
    by_cases hcur : s.activeItemIndex = some m0
    · rw [if_pos hcur]
    · rw [if_neg hcur]

theorem search_items (s : StateDefinition) (value : String) :
    (search s value).items = s.items := by
  rw [search_def]
  cases hfind : findIndex (searchItemMatches (s.searchQuery ++ value)) s.items with
  | none => rfl
  | some m0 =>
    dsimp only
    by_cases hcur : s.activeItemIndex = some m0
    · rw [if_pos hcur]
    · rw [if_neg hcur]

theorem search_menuState (s : StateDefinition) (value : String) :
    (search s value).menuState = s.menuState := by
  rw [search_def]
  cases hfind : findIndex (searchItemMatches (s.searchQuery ++ value)) s.items with
  | none => rfl
  | some m0 =>
    dsimp only
    by_cases hcur : s.activeItemIndex = some m0
    · rw [if_pos hcur]
    · rw [if_neg hcur]

theorem search_activeItemIndex (s : StateDefinition) (value : String) :
    (search s value).activeItemIndex =
      match findIndex (searchItemMatches (s.searchQuery ++ value)) s.items with
      | some m => some m
      | none => s.activeItemIndex := by
  rw [search_def]
  cases hfind : findIndex (searchItemMatches (s.searchQuery ++ value)) s.items with
  | none => rfl
  | some m0 =>
    dsimp only
    by_cases hcur : s.activeItemIndex = some m0
    · rw [if_pos hcur]
      exact hcur
    · rw [if_neg hcur]

/-- Claim C4 counterexample: with a single enabled item whose stored
`textValue` is "home delivery" and an empty current query, typing the
uppercase character "H" produces query "H"; the case-insensitive compare
asserted by the claim matches that item (index 0, enabled, different from the
current active index `none`), so the claim requires `activeItemIndex = some 0`
— but the reducer compares the raw query case-sensitively against the stored
lowercased text, finds no match, and leaves `activeItemIndex` at `none`. -/
theorem searchCaseInsensitive_cex :
    ciStartsWith "home delivery" ("" ++ "H") = true
  ∧ ((⟨MenuStates.Open, 0, 0, [⟨"i1", ⟨some "home delivery", false⟩⟩], "", none⟩
        : StateDefinition).items[0]?).map (fun it => it.dataRef.disabled)
      = some false
  ∧ (⟨MenuStates.Open, 0, 0, [⟨"i1", ⟨some "home delivery", false⟩⟩], "", none⟩
        : StateDefinition).activeItemIndex ≠ some 0
  ∧ (stateReducer
        (⟨MenuStates.Open, 0, 0, [⟨"i1", ⟨some "home delivery", false⟩⟩], "", none⟩
          : StateDefinition) (Actions.Search "H")).searchQuery = "H"
  ∧ (stateReducer
        (⟨MenuStates.Open, 0, 0, [⟨"i1", ⟨some "home delivery", false⟩⟩], "", none⟩
          : StateDefinition) (Actions.Search "H")).activeItemIndex ≠ some 0
  ∧ (stateReducer
        (⟨MenuStates.Open, 0, 0, [⟨"i1", ⟨some "home delivery", false⟩⟩], "", none⟩
          : StateDefinition) (Actions.Search "H")).activeItemIndex = none := by
  decide

/-- Claim C4 as amended: dispatching `Search value` always sets `searchQuery`
to the old query concatenated with `value` (items and menu state unchanged);
the new `activeItemIndex` becomes the index of the first item in collection
order whose stored `textValue` (the item's text, lowercased by the item at
registration time) starts with the new query under an exact, case-sensitive
compare and which is not disabled — such an item is never disabled — and when
no item matches, `activeItemIndex` is left unchanged. -/
theorem searchAccumulates (s : StateDefinition) (value : String) :
    (stateReducer s (Actions.Search value)).searchQuery = s.searchQuery ++ value
  ∧ (stateReducer s (Actions.Search value)).items = s.items
  ∧ (stateReducer s (Actions.Search value)).menuState = s.menuState
  ∧ (∀ m item, s.items[m]? = some item →
      searchItemMatches (s.searchQuery ++ value) item = true →
      (∀ k, k < m →
        ((s.items[k]?).map (searchItemMatches (s.searchQuery ++ value))).getD false
          = false) →
      (stateReducer s (Actions.Search value)).activeItemIndex = some m
        ∧ item.dataRef.disabled = false)
  ∧ ((∀ item ∈ s.items, searchItemMatches (s.searchQuery ++ value) item = false) →
      (stateReducer s (Actions.Search value)).activeItemIndex = s.activeItemIndex) := by
  refine ⟨search_searchQuery s value, search_items s value, search_menuState s value,
    ?_, ?_⟩
  · intro m item hget hmatch hfirst
    have hfind : findIndex (searchItemMatches (s.searchQuery ++ value)) s.items
        = some m := findIndex_eq_some_of hget hmatch hfirst
    constructor
    · show (search s value).activeItemIndex = some m
      rw [search_activeItemIndex, hfind]
    · have hb := hmatch
      unfold searchItemMatches at hb
      rw [Bool.and_eq_true] at hb
      simpa using hb.2
  · intro hnone
    have hfind : findIndex (searchItemMatches (s.searchQuery ++ value)) s.items
        = none := findIndex_eq_none_iff.mpr hnone
    show (search s value).activeItemIndex = s.activeItemIndex
    rw [search_activeItemIndex, hfind]

/-- Witness for the amended C4: typing "o" after "h" accumulates "ho" and
activates the item whose text is "home delivery". -/
theorem searchAccumulates_witness :
    (stateReducer sampleSearchState (Actions.Search "o")).searchQuery = "ho"
  ∧ (stateReducer sampleSearchState (Actions.Search "o")).activeItemIndex = some 1 :=
  ⟨(searchAccumulates sampleSearchState "o").1,
   ((searchAccumulates sampleSearchState "o").2.2.2.1 1
      ⟨"i2", ⟨some "home delivery", false⟩⟩ (by decide) (by decide) (by decide)).1⟩

/-- Claim C1: when the collection contains an item with id `d` (at first
matching index `idx`), `UnregisterItem d` removes exactly that entry; if the
removed entry was the active one the new active index is `null`, and
otherwise, for an active item at a valid index, the new active index points
at that same entry in the shrunken collection — never a stale numeric
index. -/
theorem unregisterIdentityStable (s : StateDefinition) (d : String) (idx : Nat)
    (hidx : findIndex (fun it => it.id = d) s.items = some idx) :
    (stateReducer s (Actions.UnregisterItem d)).items = s.items.eraseIdx idx
  ∧ (s.activeItemIndex = some idx →
      (stateReducer s (Actions.UnregisterItem d)).activeItemIndex = none)
  ∧ (∀ a, s.activeItemIndex = some a → a ≠ idx → a < s.items.length →
      ∃ j, (stateReducer s (Actions.UnregisterItem d)).activeItemIndex = some j
        ∧ (stateReducer s (Actions.UnregisterItem d)).items[j]? = s.items[a]?) := by
  refine ⟨?_, ?_, ?_⟩
  · show (unregisterItem s d).items = _
    rw [unregisterItem_def, hidx]
  · intro hact
    show (unregisterItem s d).activeItemIndex = none
    rw [unregisterItem_def, hidx, hact]
    dsimp only
    rw [if_pos rfl]
  · intro a hact hne hlt
    have hget : s.items[a]? = some s.items[a] := List.getElem?_eq_getElem hlt
    have hmem : s.items[a] ∈ s.items.eraseIdx idx :=
      mem_eraseIdx_of_getElem? hget hne
    obtain ⟨j, hj, hjlt, hjget⟩ := indexOf_of_mem hmem
    refine ⟨j, ?_, ?_⟩
    · show (unregisterItem s d).activeItemIndex = some j
      rw [unregisterItem_def, hidx, hact]
      dsimp only
      rw [if_neg (by intro hc; injection hc with hc; exact hne hc.symm)]
      rw [hget]
      dsimp only
      exact hj
    · show (unregisterItem s d).items[j]? = _
      have hitems : (unregisterItem s d).items = s.items.eraseIdx idx := by
        rw [unregisterItem_def, hidx]
      rw [hitems, hjget, hget]

/-- Witness for C1: the spec's example — collection `[A, B, C]` with the
active index pointing at `C`, unregistering `A` yields `[B, C]` with the
active index `1`, still pointing at `C`. -/
theorem unregisterIdentityStable_witness :
    findIndex (fun it => it.id = "a") sampleOpen.items = some 0
  ∧ sampleOpen.activeItemIndex = some 2
  ∧ (∃ j, (stateReducer sampleOpen (Actions.UnregisterItem "a")).activeItemIndex
        = some j
      ∧ (stateReducer sampleOpen (Actions.UnregisterItem "a")).items[j]?
          = sampleOpen.items[2]?)
  ∧ (stateReducer sampleOpen (Actions.UnregisterItem "a")).items = [itemB, itemC]
  ∧ (stateReducer sampleOpen (Actions.UnregisterItem "a")).activeItemIndex
      = some 1 :=
  ⟨by decide, rfl,
   (unregisterIdentityStable sampleOpen "a" 0 (by decide)).2.2 2 rfl
     (by decide) (by decide),
   by decide, by decide⟩

/-- Claim C10: unregistering an id that no entry carries leaves the
collection unchanged and the active item unchanged (same item, same index).
The `Nodup` hypothesis mirrors JavaScript's reference identity of the entry
objects, under which `indexOf` locates exactly the active entry; the validity
hypothesis is the active-index invariant the claim presupposes when speaking
of the item the index points at. -/
theorem unregisterUnknownNoop (s : StateDefinition) (d : String)
    (habs : ∀ item ∈ s.items, item.id ≠ d)
    (hval : activeIndexValid s = true)
    (hnd : s.items.Nodup) :
    (stateReducer s (Actions.UnregisterItem d)).items = s.items
  ∧ (stateReducer s (Actions.UnregisterItem d)).activeItemIndex
      = s.activeItemIndex := by
  have hfind : findIndex (fun it => it.id = d) s.items = none := by
    apply findIndex_eq_none_iff.mpr
    intro it hit
    exact decide_eq_false (habs it hit)
  cases hact : s.activeItemIndex with
  | none =>
    constructor
    · show (unregisterItem s d).items = s.items
      rw [unregisterItem_def, hfind]
    · show (unregisterItem s d).activeItemIndex = none
      rw [unregisterItem_def, hfind, hact]
  | some a =>
    have hlt : a < s.items.length := by
      unfold activeIndexValid at hval
      rw [hact] at hval
      exact of_decide_eq_true hval
    have hget : s.items[a]? = some s.items[a] := List.getElem?_eq_getElem hlt
    constructor
    · show (unregisterItem s d).items = s.items
      rw [unregisterItem_def, hfind]
    · show (unregisterItem s d).activeItemIndex = some a
      rw [unregisterItem_def, hfind, hact]
      dsimp only
      rw [if_neg (by intro hc; cases hc)]
      rw [hget]
      dsimp only
      rw [indexOf_self_of_nodup hnd hget]

/-- Witness for C10 at a concrete state: unregistering the unknown id "zz"
changes nothing. -/
theorem unregisterUnknownNoop_witness :
    (∀ item ∈ sampleOpen.items, item.id ≠ "zz")
  ∧ activeIndexValid sampleOpen = true
  ∧ sampleOpen.items.Nodup
  ∧ (stateReducer sampleOpen (Actions.UnregisterItem "zz")).items = sampleOpen.items
  ∧ (stateReducer sampleOpen (Actions.UnregisterItem "zz")).activeItemIndex
      = sampleOpen.activeItemIndex :=
  ⟨by decide, by decide, by decide,
   (unregisterUnknownNoop sampleOpen "zz" (by decide) (by decide) (by decide)).1,
   (unregisterUnknownNoop sampleOpen "zz" (by decide) (by decide) (by decide)).2⟩

theorem goToItem_items (s : StateDefinition) (focus : Focus) :
    (goToItem s focus).items = s.items := by
  rw [goToItem_def]
  by_cases h : s.searchQuery = "" ∧
      s.activeItemIndex = calculateActiveIndex focus s.items s.activeItemIndex
  · rw [if_pos h]
  · rw [if_neg h]

theorem unregisterItem_items (s : StateDefinition) (d : String) :
    (unregisterItem s d).items =
      match findIndex (fun it => it.id = d) s.items with
      | some i => s.items.eraseIdx i
      | none => s.items := by
  rw [unregisterItem_def]

theorem activeIndexValid_eq_true (s : StateDefinition) :
    activeIndexValid s = true ↔
      ∀ n, s.activeItemIndex = some n → n < s.items.length := by
  unfold activeIndexValid
  cases hact : s.activeItemIndex with
  | none => simp
  | some n => simp

theorem calculateActiveIndex_valid (focus : Focus) (items : List MenuItem)
    (cur : Option Nat) (hcur : ∀ c, cur = some c → c < items.length) :
    ∀ i, calculateActiveIndex focus items cur = some i → i < items.length := by
  intro i h
  unfold calculateActiveIndex at h
  cases focus with
  | First =>
    dsimp only at h
    simpa using (scanCyclic_some h).1
  | Last =>
    dsimp only at h
    simpa using (scanCyclicBack_some h).1
  | Next =>
    dsimp only at h
    cases cur with
    | none => simpa using (scanCyclic_some h).1
    | some c =>
      dsimp only at h
      cases hscan : scanCyclic (items.map fun it => it.dataRef.disabled)
          (c + 1) items.length with
      | some j =>
        rw [hscan] at h
        dsimp only at h
        injection h with h
        subst h
        simpa using (scanCyclic_some hscan).1
      | none =>
        rw [hscan] at h
        dsimp only at h
        injection h with h
        subst h
        exact hcur _ rfl
  | Previous =>
    dsimp only at h
    cases cur with
    | none => simpa using (scanCyclicBack_some h).1
    | some c =>
      dsimp only at h
      cases hscan : scanCyclicBack (items.map fun it => it.dataRef.disabled)
          (c + items.length - 1) items.length with
      | some j =>
        rw [hscan] at h
        dsimp only at h
        injection h with h
        subst h
        simpa using (scanCyclicBack_some hscan).1
      | none =>
        rw [hscan] at h
        dsimp only at h
        injection h with h
        subst h
        exact hcur _ rfl
  | Specific id =>
    dsimp only at h
    cases hfind : findIndex (fun it => it.id = id) items with
    | some k =>
      rw [hfind] at h
      dsimp only at h
      by_cases hd : (items.map fun it => it.dataRef.disabled).getD k true = true
      · rw [if_pos hd] at h
        exact hcur i h
      · rw [if_neg hd] at h
        injection h with h
        subst h
        exact findIndex_some_lt hfind
    | none =>
      rw [hfind] at h
      dsimp only at h
      exact hcur i h
  | Nothing =>
    dsimp only at h
    cases h

/-- Claim C9 (resolver spec-modelled): every reducer action preserves the
active-index validity invariant — the active index stays `null` or a valid
index into the collection. -/
theorem reducerPreservesActiveIndex (s : StateDefinition) (a : Actions)
    (h : activeIndexValid s = true) :
    activeIndexValid (stateReducer s a) = true := by
  cases a with
  | CloseMenu =>
    show activeIndexValid (closeMenu s) = true
    unfold closeMenu
    by_cases hc : s.menuState = MenuStates.Closed
    · rw [if_pos hc]
      exact h
    · rw [if_neg hc]
      rfl
  | OpenMenu =>
    show activeIndexValid (openMenu s) = true
    unfold openMenu
    by_cases hc : s.menuState = MenuStates.Open
    · rw [if_pos hc]
      exact h
    · rw [if_neg hc]
      exact h
  | ClearSearch =>
    show activeIndexValid (clearSearch s) = true
    unfold clearSearch
    by_cases hc : s.searchQuery = ""
    · rw [if_pos hc]
      exact h
    · rw [if_neg hc]
      exact h
  | GoToItem focus =>
    show activeIndexValid (goToItem s focus) = true
    rw [activeIndexValid_eq_true]
    intro n hn
    rw [goToItem_items]
    rw [goToItem_activeItemIndex] at hn
    exact calculateActiveIndex_valid focus s.items s.activeItemIndex
      ((activeIndexValid_eq_true s).mp h) n hn
  | Search value =>
    show activeIndexValid (search s value) = true
    rw [activeIndexValid_eq_true]
    intro n hn
    rw [search_items]
    rw [search_activeItemIndex] at hn
    cases hfind : findIndex (searchItemMatches (s.searchQuery ++ value)) s.items with
    | some m =>
      rw [hfind] at hn
      dsimp only at hn
      injection hn with hn
      subst hn
      exact findIndex_some_lt hfind
    | none =>
      rw [hfind] at hn
      dsimp only at hn
      exact (activeIndexValid_eq_true s).mp h n hn
  | RegisterItem id dataRef =>
    show activeIndexValid (registerItem s id dataRef) = true
    rw [activeIndexValid_eq_true]
    intro n hn
    have hn' : s.activeItemIndex = some n := hn
    have := (activeIndexValid_eq_true s).mp h n hn'
    show n < (s.items ++ [({ id := id, dataRef := dataRef } : MenuItem)]).length
    rw [List.length_append]
    omega
  | UnregisterItem d =>
    show activeIndexValid (unregisterItem s d) = true
    rw [activeIndexValid_eq_true]
    intro n hn
    rw [unregisterItem_items]
    cases hact : s.activeItemIndex with
    | none =>
      rw [unregisterItem_def, hact] at hn
      dsimp only at hn
      cases hn
    | some a =>
      have hlt : a < s.items.length := (activeIndexValid_eq_true s).mp h a hact
      have hget : s.items[a]? = some s.items[a] := List.getElem?_eq_getElem hlt
      cases hfind : findIndex (fun it => it.id = d) s.items with
      | none =>
        rw [unregisterItem_def, hact, hfind] at hn
        dsimp only at hn
        rw [if_neg (by intro hc; cases hc)] at hn
        rw [hget] at hn
        dsimp only at hn
        obtain ⟨k, hk, hklt, _⟩ := indexOf_of_mem (mem_of_getElem? hget)
        rw [hk] at hn
        injection hn with hn
        subst hn
        exact hklt
      | some i =>
        rw [unregisterItem_def, hact, hfind] at hn
        dsimp only at hn
        by_cases hia : i = a
        · rw [if_pos (by rw [hia])] at hn
          cases hn
        · rw [if_neg (by intro hc; injection hc with hc; exact hia hc)] at hn
          rw [hget] at hn
          dsimp only at hn
          have hmem : s.items[a] ∈ s.items.eraseIdx i :=
            mem_eraseIdx_of_getElem? hget (fun hc => hia hc.symm)
          obtain ⟨k, hk, hklt, _⟩ := indexOf_of_mem hmem
          rw [hk] at hn
          injection hn with hn
          subst hn
          exact hklt

/-- Witness for C9 at a concrete state and action. -/
theorem reducerPreservesActiveIndex_witness :
    activeIndexValid sampleOpen = true
  ∧ activeIndexValid (stateReducer sampleOpen (Actions.UnregisterItem "b")) = true :=
  ⟨by decide, reducerPreservesActiveIndex sampleOpen (Actions.UnregisterItem "b")
    (by decide)⟩

/-- Claim C2 (resolver spec-modelled): with at least one enabled item,
`GoToItem Next` dispatched from the last enabled index wraps around to the
first enabled index; `GoToItem Next`/`Previous` never yield the index of a
disabled item; and with every item disabled the resulting active index is
null or left unchanged. -/
theorem goToItemWrapSkip (s : StateDefinition) (F L : Nat) :
    (disabledAt s.items F = false →
     (∀ k, k < F → disabledAt s.items k = true) →
     disabledAt s.items L = false →
     (∀ k, k < s.items.length → L < k → disabledAt s.items k = true) →
     s.activeItemIndex = some L →
     (stateReducer s (Actions.GoToItem Focus.Next)).activeItemIndex = some F)
  ∧ ((∃ j, j < s.items.length ∧ disabledAt s.items j = false) →
     (∀ i, (stateReducer s (Actions.GoToItem Focus.Next)).activeItemIndex = some i →
        disabledAt s.items i = false)
     ∧ (∀ i, (stateReducer s (Actions.GoToItem Focus.Previous)).activeItemIndex
          = some i → disabledAt s.items i = false))
  ∧ ((∀ j, j < s.items.length → disabledAt s.items j = true) →
     ((stateReducer s (Actions.GoToItem Focus.Next)).activeItemIndex = none
        ∨ (stateReducer s (Actions.GoToItem Focus.Next)).activeItemIndex
            = s.activeItemIndex)
     ∧ ((stateReducer s (Actions.GoToItem Focus.Previous)).activeItemIndex = none
        ∨ (stateReducer s (Actions.GoToItem Focus.Previous)).activeItemIndex
            = s.activeItemIndex)) := by
  have hlen : (s.items.map fun it => it.dataRef.disabled).length = s.items.length :=
    List.length_map _ _
  refine ⟨?_, ?_, ?_⟩
  · intro hF1 hF2 hL1 hL2 hcur
    have hF : F < s.items.length := disabledAt_false_lt hF1
    have hL : L < s.items.length := disabledAt_false_lt hL1
    have hFL : F ≤ L := by
      by_contra hgt
      push_neg at hgt
      have hcontra := hF2 L hgt
      rw [hL1] at hcontra
      exact Bool.noConfusion hcontra
    show (goToItem s Focus.Next).activeItemIndex = some F
    rw [goToItem_activeItemIndex]
    unfold calculateActiveIndex
    rw [hcur]
    dsimp only
    have hscan : scanCyclic (s.items.map fun it => it.dataRef.disabled) (L + 1)
        s.items.length
        = some ((L + 1 + (s.items.length - 1 - L + F))
            % (s.items.map fun it => it.dataRef.disabled).length) := by
      apply scanCyclic_eq
      · omega
      · intro k hk
        rw [hlen]
        rcases Nat.lt_or_ge k (s.items.length - 1 - L) with hsmall | hbig
        · have hplt : L + 1 + k < s.items.length := by omega
          rw [Nat.mod_eq_of_lt hplt]
          exact hL2 (L + 1 + k) hplt (by omega)
        · have hge : s.items.length ≤ L + 1 + k := by omega
          have hlt2 : L + 1 + k - s.items.length < F := by omega
          rw [Nat.mod_eq_sub_mod hge, Nat.mod_eq_of_lt (by omega)]
          exact hF2 _ hlt2
      · rw [hlen]
        have heq : L + 1 + (s.items.length - 1 - L + F) = s.items.length + F := by
          omega
        rw [heq, Nat.add_mod_left, Nat.mod_eq_of_lt hF]
        exact hF1
    rw [hscan]
    dsimp only
    rw [hlen]
    have heq : L + 1 + (s.items.length - 1 - L + F) = s.items.length + F := by omega
    rw [heq, Nat.add_mod_left, Nat.mod_eq_of_lt hF]
  · rintro ⟨j, hjlt, hjen⟩
    have hjen' : (s.items.map fun it => it.dataRef.disabled).getD j true = false := hjen
    have hsteps : (s.items.map fun it => it.dataRef.disabled).length ≤ s.items.length :=
      le_of_eq hlen
    constructor
    · intro i hi
      have hi' : (goToItem s Focus.Next).activeItemIndex = some i := hi
      rw [goToItem_activeItemIndex] at hi'
      unfold calculateActiveIndex at hi'
      cases hcur : s.activeItemIndex with
      | none =>
        rw [hcur] at hi'
        dsimp only at hi'
        exact (scanCyclic_some hi').2
      | some c =>
        rw [hcur] at hi'
        dsimp only at hi'
        cases hscan : scanCyclic (s.items.map fun it => it.dataRef.disabled)
            (c + 1) s.items.length with
        | some j' =>
          rw [hscan] at hi'
          dsimp only at hi'
          injection hi' with hi'
          subst hi'
          exact (scanCyclic_some hscan).2
        | none =>
          obtain ⟨i0, hi0⟩ := scanCyclic_isSome hjen' hsteps (c + 1)
          rw [hscan] at hi0
          exact Option.noConfusion hi0
    · intro i hi
      have hi' : (goToItem s Focus.Previous).activeItemIndex = some i := hi
      rw [goToItem_activeItemIndex] at hi'
      unfold calculateActiveIndex at hi'
      cases hcur : s.activeItemIndex with
      | none =>
        rw [hcur] at hi'
        dsimp only at hi'
        exact (scanCyclicBack_some hi').2
      | some c =>
        rw [hcur] at hi'
        dsimp only at hi'
        cases hscan : scanCyclicBack (s.items.map fun it => it.dataRef.disabled)
            (c + s.items.length - 1) s.items.length with
        | some j' =>
          rw [hscan] at hi'
          dsimp only at hi'
          injection hi' with hi'
          subst hi'
          exact (scanCyclicBack_some hscan).2
        | none =>
          obtain ⟨i0, hi0⟩ := scanCyclicBack_isSome hjen' hsteps
            (c + s.items.length - 1)
          rw [hscan] at hi0
          exact Option.noConfusion hi0
  · intro hall
    have hall' : ∀ j, j < (s.items.map fun it => it.dataRef.disabled).length →
        (s.items.map fun it => it.dataRef.disabled).getD j true = true := by
      intro j hj
      exact hall j (by rwa [hlen] at hj)
    constructor
    · cases hcur : s.activeItemIndex with
      | none =>
        left
        show (goToItem s Focus.Next).activeItemIndex = none
        rw [goToItem_activeItemIndex]
        unfold calculateActiveIndex
        rw [hcur]
        dsimp only
        exact scanCyclic_eq_none hall'
      | some c =>
        right
        show (goToItem s Focus.Next).activeItemIndex = some c
        rw [goToItem_activeItemIndex]
        unfold calculateActiveIndex
        rw [hcur]
        dsimp only
        rw [scanCyclic_eq_none hall']
    · cases hcur : s.activeItemIndex with
      | none =>
        left
        show (goToItem s Focus.Previous).activeItemIndex = none
        rw [goToItem_activeItemIndex]
        unfold calculateActiveIndex
        rw [hcur]
        dsimp only
        exact scanCyclicBack_eq_none hall'
      | some c =>
        right
        show (goToItem s Focus.Previous).activeItemIndex = some c
        rw [goToItem_activeItemIndex]
        unfold calculateActiveIndex
        rw [hcur]
        dsimp only
        rw [scanCyclicBack_eq_none hall']

/-- A collection whose last enabled index is 2 and first enabled index is 0,
with a disabled entry between them, the last enabled entry active. -/
theorem goToItemWrapSkip_witness :
    (stateReducer sampleWrapState (Actions.GoToItem Focus.Next)).activeItemIndex
      = some 0
  ∧ ((stateReducer sampleAllDisabled (Actions.GoToItem Focus.Next)).activeItemIndex
        = none
      ∨ (stateReducer sampleAllDisabled (Actions.GoToItem Focus.Next)).activeItemIndex
          = sampleAllDisabled.activeItemIndex) :=
  ⟨(goToItemWrapSkip sampleWrapState 0 2).1 (by decide) (by decide) (by decide)
      (by decide) rfl,
   ((goToItemWrapSkip sampleAllDisabled 0 0).2.2 (by decide)).1⟩
